import Mathlib

/-!
Shallow embedding of the incremental transcript importer of
claude-code-utils (claude_code_analytics/scripts/import_conversations.py)
together with the relational schema it writes to
(claude_code_analytics/scripts/create_database.py).

Modelling conventions:
* JSON values decoded by json.loads are modelled by the inductive JsonValue;
  JSON numbers are modelled as integers (no claim depends on float values).
* Python exceptions that escape process_session are modelled by the error
  branch of Except, carrying the database state at the moment the exception
  was raised: the caller (import_project) catches the exception and continues,
  and the statements already executed on the connection stay in the
  transaction, which the final unconditional commit of the run persists.
* The SQLite constraints that the inserts can actually hit are modelled at
  each insert: NOT NULL and CHECK violations and driver-level rejections of
  list/dict parameters raise (error branch); with INSERT OR IGNORE the
  uniqueness / NOT NULL violations silently skip the row instead, while
  FOREIGN KEY violations still raise.
* The UNIQUE(session_id, message_index) constraint on messages is not
  checked at insert time: the importer only inserts indices strictly above
  the persisted maximum for the session, so a violation is impossible.
-/

/-- A JSON value as produced by json.loads. Numbers are modelled as
integers; floating point payloads are outside the scope of the claims. -/
inductive JsonValue where
  | null : JsonValue
  | bool (b : Bool) : JsonValue
  | num (n : Int) : JsonValue
  | str (s : String) : JsonValue
  | arr (items : List JsonValue) : JsonValue
  | obj (fields : List (String × JsonValue)) : JsonValue

instance : Inhabited JsonValue := ⟨JsonValue.null⟩

mutual
/-- Decidable equality of JSON values (hand-written because automatic
deriving does not handle the nested lists). -/
def JsonValue.decEq : (a b : JsonValue) → Decidable (a = b)
  | .null, .null => isTrue rfl
  | .bool x, .bool y =>
    if h : x = y then isTrue (by rw [h])
    else isFalse (fun hc => JsonValue.noConfusion hc (fun hb => h hb))
  | .num x, .num y =>
    if h : x = y then isTrue (by rw [h])
    else isFalse (fun hc => JsonValue.noConfusion hc (fun hb => h hb))
  | .str x, .str y =>
    if h : x = y then isTrue (by rw [h])
    else isFalse (fun hc => JsonValue.noConfusion hc (fun hb => h hb))
  | .arr xs, .arr ys =>
    match JsonValue.decEqArr xs ys with
    | isTrue h => isTrue (by rw [h])
    | isFalse h => isFalse (fun hc => JsonValue.noConfusion hc (fun hb => h hb))
  | .obj xs, .obj ys =>
    match JsonValue.decEqObj xs ys with
    | isTrue h => isTrue (by rw [h])
    | isFalse h => isFalse (fun hc => JsonValue.noConfusion hc (fun hb => h hb))
  | .null, .bool _ => isFalse (fun h => JsonValue.noConfusion h)
  | .null, .num _ => isFalse (fun h => JsonValue.noConfusion h)
  | .null, .str _ => isFalse (fun h => JsonValue.noConfusion h)
  | .null, .arr _ => isFalse (fun h => JsonValue.noConfusion h)
  | .null, .obj _ => isFalse (fun h => JsonValue.noConfusion h)
  | .bool _, .null => isFalse (fun h => JsonValue.noConfusion h)
  | .bool _, .num _ => isFalse (fun h => JsonValue.noConfusion h)
  | .bool _, .str _ => isFalse (fun h => JsonValue.noConfusion h)
  | .bool _, .arr _ => isFalse (fun h => JsonValue.noConfusion h)
  | .bool _, .obj _ => isFalse (fun h => JsonValue.noConfusion h)
  | .num _, .null => isFalse (fun h => JsonValue.noConfusion h)
  | .num _, .bool _ => isFalse (fun h => JsonValue.noConfusion h)
  | .num _, .str _ => isFalse (fun h => JsonValue.noConfusion h)
  | .num _, .arr _ => isFalse (fun h => JsonValue.noConfusion h)
  | .num _, .obj _ => isFalse (fun h => JsonValue.noConfusion h)
  | .str _, .null => isFalse (fun h => JsonValue.noConfusion h)
  | .str _, .bool _ => isFalse (fun h => JsonValue.noConfusion h)
  | .str _, .num _ => isFalse (fun h => JsonValue.noConfusion h)
  | .str _, .arr _ => isFalse (fun h => JsonValue.noConfusion h)
  | .str _, .obj _ => isFalse (fun h => JsonValue.noConfusion h)
  | .arr _, .null => isFalse (fun h => JsonValue.noConfusion h)
  | .arr _, .bool _ => isFalse (fun h => JsonValue.noConfusion h)
  | .arr _, .num _ => isFalse (fun h => JsonValue.noConfusion h)
  | .arr _, .str _ => isFalse (fun h => JsonValue.noConfusion h)
  | .arr _, .obj _ => isFalse (fun h => JsonValue.noConfusion h)
  | .obj _, .null => isFalse (fun h => JsonValue.noConfusion h)
  | .obj _, .bool _ => isFalse (fun h => JsonValue.noConfusion h)
  | .obj _, .num _ => isFalse (fun h => JsonValue.noConfusion h)
  | .obj _, .str _ => isFalse (fun h => JsonValue.noConfusion h)
  | .obj _, .arr _ => isFalse (fun h => JsonValue.noConfusion h)

/-- Decidable equality of JSON value lists. -/
def JsonValue.decEqArr : (a b : List JsonValue) → Decidable (a = b)
  | [], [] => isTrue rfl
  | [], _ :: _ => isFalse (fun h => List.noConfusion h)
  | _ :: _, [] => isFalse (fun h => List.noConfusion h)
  | x :: xs, y :: ys =>
    match JsonValue.decEq x y, JsonValue.decEqArr xs ys with
    | isTrue h1, isTrue h2 => isTrue (by rw [h1, h2])
    | isFalse h1, _ => isFalse (fun hc => List.noConfusion hc (fun hh _ => h1 hh))
    | _, isFalse h2 => isFalse (fun hc => List.noConfusion hc (fun _ ht => h2 ht))

/-- Decidable equality of JSON object field lists. -/
def JsonValue.decEqObj : (a b : List (String × JsonValue)) → Decidable (a = b)
  | [], [] => isTrue rfl
  | [], _ :: _ => isFalse (fun h => List.noConfusion h)
  | _ :: _, [] => isFalse (fun h => List.noConfusion h)
  | (k1, v1) :: xs, (k2, v2) :: ys =>
    if hk : k1 = k2 then
      match JsonValue.decEq v1 v2, JsonValue.decEqObj xs ys with
      | isTrue hv, isTrue ht => isTrue (by rw [hk, hv, ht])
      | isFalse hv, _ =>
        isFalse (fun hc => List.noConfusion hc (fun hh _ => hv (congrArg Prod.snd hh)))
      | _, isFalse ht => isFalse (fun hc => List.noConfusion hc (fun _ ht2 => ht ht2))
    else isFalse (fun hc => List.noConfusion hc (fun hh _ => hk (congrArg Prod.fst hh)))
end

instance : DecidableEq JsonValue := JsonValue.decEq

/-- Python dict.get on a JSON object: the value of the first binding of the
key, if any. Objects decoded from JSON have distinct keys. Returns none for
a missing key and for non-object values (where Python would have no .get). -/
def JsonValue.get? (v : JsonValue) (key : String) : Option JsonValue :=
  match v with
  | .obj fields => (fields.find? (fun kv => kv.1 == key)).map (fun kv => kv.2)
  | _ => none

/-- Python dict.get with default None: a missing key yields null. -/
def pyGet (v : JsonValue) (key : String) : JsonValue :=
  (v.get? key).getD .null

/-- Python truthiness of a decoded JSON value. -/
def JsonValue.truthy : JsonValue → Bool
  | .null => false
  | .bool b => b
  | .num n => n != 0
  | .str s => s != ""
  | .arr items => !items.isEmpty
  | .obj fields => !fields.isEmpty

/-- Whether the value can be used as a Python dict key (hashable):
lists and dicts are not. -/
def JsonValue.hashable : JsonValue → Bool
  | .arr _ => false
  | .obj _ => false
  | _ => true

/-- Whether the sqlite3 driver accepts the value as a bound parameter:
lists and dicts raise InterfaceError. -/
def sqlStorable : JsonValue → Bool
  | .arr _ => false
  | .obj _ => false
  | _ => true

/-- TEXT column affinity applied by SQLite to a scalar bound parameter
(Python bools are bound as integers 1 / 0). Only reached for hashable,
truthy scalars in the importer, so null gets an arbitrary image. -/
def textAffinity : JsonValue → String
  | .str s => s
  | .num n => toString n
  | .bool true => "1"
  | .bool false => "0"
  | _ => ""

mutual
/-- Python repr of a decoded JSON value, used by str on containers. -/
def pyRepr : JsonValue → String
  | .null => "None"
  | .bool true => "True"
  | .bool false => "False"
  | .num n => toString n
  | .str s => "\x27" ++ s ++ "\x27"
  | .arr items => "[" ++ pyReprArr items ++ "]"
  | .obj fields => "\x7b" ++ pyReprObj fields ++ "\x7d"

/-- Comma-separated reprs of the elements of a list. -/
def pyReprArr : List JsonValue → String
  | [] => ""
  | [v] => pyRepr v
  | v :: rest => pyRepr v ++ ", " ++ pyReprArr rest

/-- Comma-separated reprs of the bindings of a dict. -/
def pyReprObj : List (String × JsonValue) → String
  | [] => ""
  | [kv] => "\x27" ++ kv.1 ++ "\x27: " ++ pyRepr kv.2
  | kv :: rest => "\x27" ++ kv.1 ++ "\x27: " ++ pyRepr kv.2 ++ ", " ++ pyReprObj rest
end

/-- Python str() of a decoded JSON value: a string is returned verbatim,
anything else is its repr. -/
def pyStr : JsonValue → String
  | .str s => s
  | v => pyRepr v

mutual
/-- json.dumps of a decoded JSON value (default separators). -/
def dumps : JsonValue → String
  | .null => "null"
  | .bool true => "true"
  | .bool false => "false"
  | .num n => toString n
  | .str s => "\"" ++ s ++ "\""
  | .arr items => "[" ++ dumpsArr items ++ "]"
  | .obj fields => "\x7b" ++ dumpsObj fields ++ "\x7d"

/-- Comma-separated dumps of the elements of a list. -/
def dumpsArr : List JsonValue → String
  | [] => ""
  | [v] => dumps v
  | v :: rest => dumps v ++ ", " ++ dumpsArr rest

/-- Comma-separated dumps of the bindings of a dict. -/
def dumpsObj : List (String × JsonValue) → String
  | [] => ""
  | [kv] => "\"" ++ kv.1 ++ "\": " ++ dumps kv.2
  | kv :: rest => "\"" ++ kv.1 ++ "\": " ++ dumps kv.2 ++ ", " ++ dumpsObj rest
end

/-- One physical line of a transcript file as seen by the decoder after
strip(): blank, invalid JSON (json.loads raises JSONDecodeError), or a
decoded JSON value. -/
inductive RawLine where
  | blank : RawLine
  | malformed : RawLine
  | good (v : JsonValue) : RawLine

/-- One event of reading a session file: either a line is delivered, or the
read itself fails with an I/O error (OSError or any other exception raised
while opening or iterating the file). -/
inductive ReadEvent where
  | line (l : RawLine) : ReadEvent
  | ioError : ReadEvent

/-- The line loop of parse_jsonl_file: blank lines are skipped, invalid
JSON lines are skipped with a warning, decoded entries accumulate; an I/O
error at any point makes the whole call return the empty list, discarding
every entry accumulated so far. -/
def parseGo : List ReadEvent → List JsonValue → List JsonValue
  | [], acc => acc
  | .ioError :: _, _ => []
  | .line .blank :: rest, acc => parseGo rest acc
  | .line .malformed :: rest, acc => parseGo rest acc
  | .line (.good v) :: rest, acc => parseGo rest (acc ++ [v])

/-- parse_jsonl_file: parse a JSONL file and return the list of entries. -/
def parse_jsonl_file (events : List ReadEvent) : List JsonValue :=
  parseGo events []

/-- The value of a JSON string, when it is one; joining a list that
contains anything else raises a TypeError in Python. -/
def jsonAsStr : JsonValue → Option String
  | .str s => some s
  | _ => none

/-- Python "\n".join over the accumulated parts: succeeds only when every
part is a string. -/
def pyJoin (parts : List JsonValue) : Option String :=
  (parts.mapM jsonAsStr).map (fun l => String.intercalate "\n" l)

/-- The text_parts accumulation loop of extract_text_from_content: a dict
item contributes its text field when its type field equals "text" and it
has a text key; a bare string item contributes itself; everything else is
skipped. -/
def textPartsOf : List JsonValue → List JsonValue
  | [] => []
  | item :: rest =>
    match item with
    | .obj fields =>
      if pyGet (.obj fields) "type" == .str "text" && ((JsonValue.obj fields).get? "text").isSome
      then pyGet (.obj fields) "text" :: textPartsOf rest
      else textPartsOf rest
    | .str s => .str s :: textPartsOf rest
    | _ => textPartsOf rest

/-- extract_text_from_content: a string is returned verbatim; a list is
flattened through textPartsOf and joined with newlines; anything else is
stringified with str(). The none result models the TypeError that join
raises when a harvested text field is not a string. -/
def extract_text_from_content : JsonValue → Option String
  | .str s => some s
  | .arr items => pyJoin (textPartsOf items)
  | v => some (pyStr v)

/-- The text_parts accumulation loop of extract_tool_result_content: a dict
item contributes its text field whenever it has a text key (no type check),
otherwise str() of its content field when it has a content key; a bare
string item contributes itself; everything else is skipped. -/
def resultPartsOf : List JsonValue → List JsonValue
  | [] => []
  | item :: rest =>
    match item with
    | .obj fields =>
      if ((JsonValue.obj fields).get? "text").isSome
      then pyGet (.obj fields) "text" :: resultPartsOf rest
      else if ((JsonValue.obj fields).get? "content").isSome
      then .str (pyStr (pyGet (.obj fields) "content")) :: resultPartsOf rest
      else resultPartsOf rest
    | .str s => .str s :: resultPartsOf rest
    | _ => resultPartsOf rest

/-- extract_tool_result_content: a string is returned verbatim; a list is
flattened through resultPartsOf and joined with newlines; anything else is
stringified with str(). -/
def extract_tool_result_content : JsonValue → Option String
  | .str s => some s
  | .arr items => pyJoin (resultPartsOf items)
  | v => some (pyStr v)

/-- The six token usage fields extracted from a message record; each is the
raw value of the corresponding usage key (null when the key is absent). -/
structure PyUsage where
  input_tokens : JsonValue
  output_tokens : JsonValue
  cache_creation_input_tokens : JsonValue
  cache_read_input_tokens : JsonValue
  cache_ephemeral_5m_tokens : JsonValue
  cache_ephemeral_1h_tokens : JsonValue
deriving DecidableEq

/-- One element of the in-memory messages list built by the entry loop of
process_session. -/
structure PyMsg where
  role : JsonValue
  content : JsonValue
  timestamp : JsonValue
  usage : PyUsage
deriving DecidableEq

instance : Inhabited PyMsg :=
  ⟨⟨.null, .null, .null, ⟨.null, .null, .null, .null, .null, .null⟩⟩⟩

/-- One value of the tool_uses dict built by the entry loop. -/
structure PyToolUse where
  name : JsonValue
  input : JsonValue
  timestamp : JsonValue
  message_index : Nat
deriving DecidableEq

/-- One value of the tool_results dict built by the entry loop. -/
structure PyToolResult where
  content : JsonValue
  is_error : JsonValue
deriving DecidableEq

/-- Python dict assignment d[k] = v: an existing binding is overwritten in
place (keeping its position), otherwise the binding is appended. -/
def assocSet {β : Type} (l : List (JsonValue × β)) (k : JsonValue) (v : β) :
    List (JsonValue × β) :=
  if l.any (fun kv => kv.1 == k)
  then l.map (fun kv => if kv.1 == k then (k, v) else kv)
  else l ++ [(k, v)]

/-- Python dict lookup d.get(k): the value bound to the key, if any. -/
def assocGet? {β : Type} (l : List (JsonValue × β)) (k : JsonValue) : Option β :=
  (l.find? (fun kv => kv.1 == k)).map (fun kv => kv.2)

/-- The accumulator of the entry loop of process_session: the full ordered
message list plus the tool_uses and tool_results dicts. -/
structure DecodeAcc where
  messages : List PyMsg
  tool_uses : List (JsonValue × PyToolUse)
  tool_results : List (JsonValue × PyToolResult)
deriving DecidableEq

/-- The content item scan of the entry loop (only run for list contents of
messages beyond the watermark): records tool_use items under their id and
tool_result items under their tool_use_id, when the id is truthy. Storing
under an unhashable key (a decoded list or dict) raises a TypeError. -/
def scanItem (ts : JsonValue) (midx : Nat) (acc : DecodeAcc) (item : JsonValue) :
    Except Unit DecodeAcc :=
  match item with
  | .obj fields =>
    if pyGet (.obj fields) "type" == .str "tool_use" then
      let tid := pyGet (.obj fields) "id"
      let tu : PyToolUse := ⟨pyGet (.obj fields) "name", pyGet (.obj fields) "input", ts, midx⟩
      if tid.truthy then
        if tid.hashable then
          .ok { acc with tool_uses := assocSet acc.tool_uses tid tu }
        else .error ()
      else .ok acc
    else if pyGet (.obj fields) "type" == .str "tool_result" then
      let tid := pyGet (.obj fields) "tool_use_id"
      let tr : PyToolResult := ⟨pyGet (.obj fields) "content",
        ((JsonValue.obj fields).get? "is_error").getD (.bool false)⟩
      if tid.truthy then
        if tid.hashable then
          .ok { acc with tool_results := assocSet acc.tool_results tid tr }
        else .error ()
      else .ok acc
    else .ok acc
  | _ => .ok acc

/-- Left fold of scanItem over the items of a list content. -/
def scanItems (ts : JsonValue) (midx : Nat) (acc : DecodeAcc) :
    List JsonValue → Except Unit DecodeAcc
  | [] => .ok acc
  | item :: rest =>
    match scanItem ts midx acc item with
    | .ok acc2 => scanItems ts midx acc2 rest
    | .error u => .error u

/-- One step of the entry loop of process_session. A non-dict entry raises
at entry.get; a non-dict message value, usage value or cache_creation value
raises at the corresponding .get. The timestamp is the ts field when truthy,
else the timestamp field. A message record is appended to the message list,
and when its content is a list and its index is beyond the watermark, the
content items are scanned for tool uses and tool results. -/
def processEntry (skip : Int) (acc : DecodeAcc) (entry : JsonValue) :
    Except Unit DecodeAcc :=
  match entry with
  | .obj fields =>
    let ts := if (pyGet (.obj fields) "ts").truthy
              then pyGet (.obj fields) "ts" else pyGet (.obj fields) "timestamp"
    match (JsonValue.obj fields).get? "message" with
    | none => .ok acc
    | some msg =>
      match msg with
      | .obj mfields =>
        let content := pyGet (.obj mfields) "content"
        let usage := ((JsonValue.obj mfields).get? "usage").getD (.obj [])
        match usage with
        | .obj ufields =>
          let cc := ((JsonValue.obj ufields).get? "cache_creation").getD (.obj [])
          match cc with
          | .obj _ =>
            let midx := acc.messages.length
            let pm : PyMsg :=
              { role := pyGet (.obj mfields) "role"
                content := content
                timestamp := ts
                usage :=
                  { input_tokens := pyGet (.obj ufields) "input_tokens"
                    output_tokens := pyGet (.obj ufields) "output_tokens"
                    cache_creation_input_tokens := pyGet (.obj ufields) "cache_creation_input_tokens"
                    cache_read_input_tokens := pyGet (.obj ufields) "cache_read_input_tokens"
                    cache_ephemeral_5m_tokens := pyGet cc "ephemeral_5m_input_tokens"
                    cache_ephemeral_1h_tokens := pyGet cc "ephemeral_1h_input_tokens" } }
            let acc2 := { acc with messages := acc.messages ++ [pm] }
            match content with
            | .arr items =>
              if (midx : Int) > skip then scanItems ts midx acc2 items else .ok acc2
            | _ => .ok acc2
          | _ => .error ()
        | _ => .error ()
      | _ => .error ()
  | _ => .error ()

/-- The entry loop of process_session over all decoded entries. -/
def decodeEntries (skip : Int) (acc : DecodeAcc) : List JsonValue → Except Unit DecodeAcc
  | [] => .ok acc
  | entry :: rest =>
    match processEntry skip acc entry with
    | .ok acc2 => decodeEntries skip acc2 rest
    | .error u => .error u

/-- One row of the sessions table. -/
structure SessionRow where
  session_id : String
  project_id : String
  start_time : JsonValue
  end_time : JsonValue
  message_count : Nat
  tool_use_count : Nat
deriving DecidableEq

/-- One row of the messages table. The six token columns hold the raw bound
values; null models SQL NULL. -/
structure MessageRow where
  session_id : String
  message_index : Nat
  role : JsonValue
  content : String
  timestamp : JsonValue
  input_tokens : JsonValue
  output_tokens : JsonValue
  cache_creation_input_tokens : JsonValue
  cache_read_input_tokens : JsonValue
  cache_ephemeral_5m_tokens : JsonValue
  cache_ephemeral_1h_tokens : JsonValue
deriving DecidableEq

/-- One row of the tool_uses table. tool_use_id is the TEXT primary key
after column affinity; none models SQL NULL in the two nullable text
columns. -/
structure ToolRow where
  tool_use_id : String
  session_id : String
  message_index : Nat
  tool_name : JsonValue
  tool_input : Option String
  tool_result : Option String
  is_error : JsonValue
  timestamp : JsonValue
deriving DecidableEq

/-- The relational store: the four tables written by the importer
(projects reduced to their primary keys; created_at defaults are not
modelled). -/
structure DBState where
  projects : List String
  sessions : List SessionRow
  messages : List MessageRow
  tool_uses : List ToolRow
deriving DecidableEq

/-- SELECT MAX(message_index) FROM messages WHERE session_id = ?, with the
None result mapped to -1 as in process_session. -/
def skipUntilIndex (st : DBState) (sid : String) : Int :=
  (st.messages.filter (fun r => r.session_id == sid)).foldl
    (fun a r => max a ((r.message_index : Int))) (-1)

/-- SELECT COUNT(*) FROM tool_uses WHERE session_id = ?. -/
def toolCountDB (st : DBState) (sid : String) : Nat :=
  (st.tool_uses.filter (fun r => r.session_id == sid)).length

/-- UPDATE sessions SET end_time = ?, message_count = ?, tool_use_count = ?
WHERE session_id = ?. -/
def updateSessionRow (rows : List SessionRow) (sid : String) (et : JsonValue)
    (cnt tcnt : Nat) : List SessionRow :=
  rows.map (fun r =>
    if r.session_id == sid
    then { r with end_time := et, message_count := cnt, tool_use_count := tcnt }
    else r)

/-- The constraints a message INSERT must satisfy to succeed: the foreign
key to sessions, the role NOT NULL + CHECK constraint, the timestamp NOT
NULL constraint, and driver acceptance of all bound values (a decoded list
or dict parameter raises InterfaceError). A violation raises; nothing is
caught around this INSERT. -/
def msgInsertOk (st : DBState) (sid : String) (pm : PyMsg) : Bool :=
  st.sessions.any (fun r => r.session_id == sid) &&
  (pm.role == .str "user" || pm.role == .str "assistant") &&
  (pm.timestamp != .null) && sqlStorable pm.timestamp &&
  sqlStorable pm.usage.input_tokens && sqlStorable pm.usage.output_tokens &&
  sqlStorable pm.usage.cache_creation_input_tokens &&
  sqlStorable pm.usage.cache_read_input_tokens &&
  sqlStorable pm.usage.cache_ephemeral_5m_tokens &&
  sqlStorable pm.usage.cache_ephemeral_1h_tokens

/-- The message row bound by the INSERT INTO messages statement. -/
def mkMsgRow (sid : String) (idx : Nat) (pm : PyMsg) (text : String) : MessageRow :=
  { session_id := sid
    message_index := idx
    role := pm.role
    content := text
    timestamp := pm.timestamp
    input_tokens := pm.usage.input_tokens
    output_tokens := pm.usage.output_tokens
    cache_creation_input_tokens := pm.usage.cache_creation_input_tokens
    cache_read_input_tokens := pm.usage.cache_read_input_tokens
    cache_ephemeral_5m_tokens := pm.usage.cache_ephemeral_5m_tokens
    cache_ephemeral_1h_tokens := pm.usage.cache_ephemeral_1h_tokens }

/-- The message insert loop of process_session over the enumerated full
message list: indices at or below the watermark are skipped; for the rest
the content is flattened (a TypeError there aborts the loop, keeping the
rows already inserted) and the row is inserted. -/
def insertMessages (sid : String) (skip : Int) (st : DBState) :
    List (Nat × PyMsg) → Except DBState DBState
  | [] => .ok st
  | (idx, pm) :: rest =>
    if (idx : Int) ≤ skip then insertMessages sid skip st rest
    else
      match extract_text_from_content pm.content with
      | none => .error st
      | some text =>
        if msgInsertOk st sid pm
        then insertMessages sid skip
          { st with messages := st.messages ++ [mkMsgRow sid idx pm text] } rest
        else .error st

/-- The content passed to extract_tool_result_content for a tool use:
the content stored for a matching tool result, else the empty string
(tool_results.get(tool_id, {}) followed by .get of content with default
empty string). -/
def toolResultContentOf (trs : List (JsonValue × PyToolResult)) (tid : JsonValue) :
    JsonValue :=
  match assocGet? trs tid with
  | some d => d.content
  | none => .str ""

/-- The is_error value bound for a tool use: the value stored for a
matching tool result, else False. -/
def toolResultErrorOf (trs : List (JsonValue × PyToolResult)) (tid : JsonValue) :
    JsonValue :=
  match assocGet? trs tid with
  | some d => d.is_error
  | none => .bool false

/-- json.dumps of the tool input when the input is truthy, else SQL NULL. -/
def toolInputOf (v : JsonValue) : Option String :=
  if v.truthy then some (dumps v) else none

/-- Driver acceptance of the bound tool row values: a decoded list or dict
raises InterfaceError, which INSERT OR IGNORE does not cover. -/
def toolParamsOk (tid : JsonValue) (tu : PyToolUse) (rerr : JsonValue) : Bool :=
  sqlStorable tid && sqlStorable tu.name && sqlStorable tu.timestamp && sqlStorable rerr

/-- The conditions under which INSERT OR IGNORE silently drops the tool
row: a primary key conflict on tool_use_id, or a NOT NULL violation on
tool_name or timestamp. -/
def toolIgnored (st : DBState) (key : String) (tu : PyToolUse) : Bool :=
  st.tool_uses.any (fun r => r.tool_use_id == key) ||
  tu.name == .null || tu.timestamp == .null

/-- The tool row bound by the INSERT OR IGNORE INTO tool_uses statement. -/
def mkToolRow (sid key : String) (tu : PyToolUse) (result : String)
    (rerr : JsonValue) : ToolRow :=
  { tool_use_id := key
    session_id := sid
    message_index := tu.message_index
    tool_name := tu.name
    tool_input := toolInputOf tu.input
    tool_result := some result
    is_error := rerr
    timestamp := tu.timestamp }

/-- The tool insert loop of process_session over the tool_uses dict in
insertion order: the result content is flattened (a TypeError aborts the
loop), the row is bound (InterfaceError on a list or dict value aborts),
the foreign key to sessions must hold (not covered by OR IGNORE), and
uniqueness or NOT NULL violations silently skip the row. -/
def insertTools (sid : String) (trs : List (JsonValue × PyToolResult)) (st : DBState) :
    List (JsonValue × PyToolUse) → Except DBState DBState
  | [] => .ok st
  | (tid, tu) :: rest =>
    match extract_tool_result_content (toolResultContentOf trs tid) with
    | none => .error st
    | some result =>
      if toolParamsOk tid tu (toolResultErrorOf trs tid) then
        if st.sessions.any (fun r => r.session_id == sid) then
          if toolIgnored st (textAffinity tid) tu
          then insertTools sid trs st rest
          else insertTools sid trs
            { st with tool_uses := st.tool_uses ++
                [mkToolRow sid (textAffinity tid) tu result (toolResultErrorOf trs tid)] } rest
        else .error st
      else .error st

/-- The tail of process_session shared by the incremental and the fresh
branch: insert the new messages, then the collected tool uses, and return
the state with the pass counts (new messages inserted, tool invocations
found in this pass). -/
def writePhase (sid : String) (skip : Int) (acc : DecodeAcc) (newCount : Nat)
    (st1 : DBState) : Except DBState (DBState × Nat × Nat) :=
  match insertMessages sid skip st1 acc.messages.enum with
  | .error s => .error s
  | .ok st2 =>
    match insertTools sid acc.tool_results st2 acc.tool_uses with
    | .error s => .error s
    | .ok st3 => .ok (st3, newCount, acc.tool_uses.length)

/-- process_session: import one session JSONL file into the store. The ok
result carries the updated store and the counts returned by the Python
function; the error result carries the store at the moment an uncaught
exception was raised (the caller logs it and continues, and the
statements already executed stay in the transaction). -/
def process_session (events : List ReadEvent) (session_id project_id : String)
    (st : DBState) : Except DBState (DBState × Nat × Nat) :=
  let skip := skipUntilIndex st session_id
  let entries := parse_jsonl_file events
  if entries.isEmpty then .ok (st, 0, 0)
  else
    match decodeEntries skip ⟨[], [], []⟩ entries with
    | .error _ => .error st
    | .ok acc =>
      if acc.messages.isEmpty then .ok (st, 0, 0)
      else
        let new_messages := acc.messages.enum.filter (fun p => (p.1 : Int) > skip)
        if new_messages.isEmpty ∧ 0 ≤ skip then .ok (st, 0, 0)
        else
          let start_time := (acc.messages.headI).timestamp
          let end_time := (acc.messages.getLast!).timestamp
          let total_message_count := acc.messages.length
          let total_tool_use_count :=
            if 0 ≤ skip then toolCountDB st session_id + acc.tool_uses.length
            else acc.tool_uses.length
          if 0 ≤ skip then
            if sqlStorable end_time then
              let updated := updateSessionRow st.sessions session_id end_time
                total_message_count total_tool_use_count
              writePhase session_id skip acc new_messages.length
                { st with sessions := updated }
            else .error st
          else
            if sqlStorable start_time && sqlStorable end_time then
              if st.sessions.any (fun r => r.session_id == session_id) ∨
                 ¬ (st.projects.contains project_id)
              then .ok (st, 0, 0)
              else
                let newRow : SessionRow := ⟨session_id, project_id, start_time, end_time,
                  total_message_count, total_tool_use_count⟩
                writePhase session_id skip acc new_messages.length
                  { st with sessions := st.sessions ++ [newRow] }
            else .error st

instance {α β : Type} [DecidableEq α] [DecidableEq β] : DecidableEq (Except α β) :=
  fun x y =>
  match x, y with
  | .error a, .error b =>
    if h : a = b then isTrue (by rw [h])
    else isFalse (fun hc => Except.noConfusion hc (fun hh => h hh))
  | .ok a, .ok b =>
    if h : a = b then isTrue (by rw [h])
    else isFalse (fun hc => Except.noConfusion hc (fun hh => h hh))
  | .error _, .ok _ => isFalse (fun hc => Except.noConfusion hc)
  | .ok _, .error _ => isFalse (fun hc => Except.noConfusion hc)

/-- The store after a call to process_session, whether or not an exception
escaped. -/
def resultState : Except DBState (DBState × Nat × Nat) → DBState
  | .error s => s
  | .ok (s, _, _) => s

/-- The persisted message indices of a session. -/
def msgIndices (st : DBState) (sid : String) : List Nat :=
  (st.messages.filter (fun r => r.session_id == sid)).map (fun r => r.message_index)

/-- The index contiguity invariant of the spec for one session: every
session row for the id has the persisted indices as exactly the set
0 .. message_count - 1, without gaps or repeats. -/
def sessionInvariant (st : DBState) (sid : String) : Prop :=
  ∀ row ∈ st.sessions, row.session_id = sid →
    (msgIndices st sid).Perm (List.range row.message_count)

instance (st : DBState) (sid : String) : Decidable (sessionInvariant st sid) := by
  unfold sessionInvariant
  infer_instance

/-- The tool_use_count column of the first session row with the given id. -/
def sessionToolCount (st : DBState) (sid : String) : Option Nat :=
  (st.sessions.find? (fun r => r.session_id == sid)).map (fun r => r.tool_use_count)

/-- The state carried by one insert loop step, whether or not it raised. -/
def stepResult : Except DBState DBState → DBState
  | .ok s => s
  | .error s => s

lemma parseGo_ioError (pre post : List ReadEvent) (acc : List JsonValue) :
    parseGo (pre ++ .ioError :: post) acc = [] := by
  induction pre generalizing acc with
  | nil => rfl
  | cons e rest ih =>
    cases e with
    | ioError => rfl
    | line l => cases l with
      | blank => simpa [parseGo] using ih acc
      | malformed => simpa [parseGo] using ih acc
      | good v => simpa [parseGo] using ih (acc ++ [v])

lemma foldmax_init_le (l : List Nat) (b : Int) :
    b ≤ l.foldl (fun (a : Int) (i : Nat) => max a (i : Int)) b := by
  induction l generalizing b with
  | nil => simp
  | cons x rest ih =>
    calc b ≤ max b (x : Int) := le_max_left _ _
    _ ≤ _ := ih _

lemma foldmax_mem_le (l : List Nat) (b : Int) (i : Nat) (hi : i ∈ l) :
    (i : Int) ≤ l.foldl (fun (a : Int) (j : Nat) => max a (j : Int)) b := by
  induction l generalizing b with
  | nil => cases hi
  | cons x rest ih =>
    rcases List.mem_cons.mp hi with h | h
    · subst h
      calc (i : Int) ≤ max b i := le_max_right _ _
      _ ≤ _ := foldmax_init_le _ _
    · exact ih _ h

lemma foldmax_perm {l1 l2 : List Nat} (h : l1.Perm l2) (b : Int) :
    l1.foldl (fun (a : Int) (i : Nat) => max a (i : Int)) b =
    l2.foldl (fun (a : Int) (i : Nat) => max a (i : Int)) b := by
  induction h generalizing b with
  | nil => rfl
  | cons x _ ih => exact ih _
  | swap x y l =>
    show List.foldl _ (max (max b (y : Int)) (x : Int)) l =
      List.foldl _ (max (max b (x : Int)) (y : Int)) l
    rw [max_assoc, max_comm ((y : Int)) ((x : Int)), max_assoc]
  | trans _ _ ih1 ih2 => rw [ih1 _, ih2 _]

lemma foldmax_range (c : Nat) :
    (List.range c).foldl (fun (a : Int) (i : Nat) => max a (i : Int)) (-1) = (c : Int) - 1 := by
  induction c with
  | zero => simp
  | succ n ih =>
    rw [List.range_succ, List.foldl_append, ih]
    show max ((n : Int) - 1) (n : Int) = ((n : Int) + 1) - 1
    rw [max_eq_right (by omega)]
    omega

lemma skipUntil_eq_fold (st : DBState) (sid : String) :
    skipUntilIndex st sid =
    (msgIndices st sid).foldl (fun (a : Int) (i : Nat) => max a (i : Int)) (-1) := by
  unfold skipUntilIndex msgIndices
  rw [List.foldl_map]

lemma skipUntil_of_perm (st : DBState) (sid : String) (c : Nat)
    (h : (msgIndices st sid).Perm (List.range c)) :
    skipUntilIndex st sid = (c : Int) - 1 := by
  rw [skipUntil_eq_fold, foldmax_perm h, foldmax_range]

lemma skipUntil_neg (st : DBState) (sid : String)
    (h : ¬ 0 ≤ skipUntilIndex st sid) : msgIndices st sid = [] := by
  cases hm : msgIndices st sid with
  | nil => rfl
  | cons i rest =>
    exfalso
    apply h
    calc (0 : Int) ≤ (i : Int) := Int.natCast_nonneg i
    _ ≤ _ := by
      rw [skipUntil_eq_fold, hm]
      exact foldmax_mem_le _ _ _ (List.mem_cons_self _ _)

lemma filter_range_gt (n N : Nat) :
    (List.range n).filter (fun (i : Nat) => ((i : Int) > (N : Int) - 1 : Bool)) =
    List.range' N (n - N) := by
  induction n with
  | zero => simp
  | succ k ih =>
    rw [List.range_succ, List.filter_append, ih]
    by_cases hk : N ≤ k
    · have hd : (decide ((k : Int) > (N : Int) - 1)) = true := by
        simp only [decide_eq_true_eq]
        omega
      simp only [List.filter_cons, hd, List.filter_nil]
      have h1 : k + 1 - N = (k - N) + 1 := by omega
      have h2 : N + 1 * (k - N) = k := by omega
      rw [h1, List.range'_concat, h2]
      simp
    · have hd : (decide ((k : Int) > (N : Int) - 1)) = false := by
        simp only [decide_eq_false_iff_not]
        omega
      simp only [List.filter_cons, hd, List.filter_nil, List.append_nil]
      have h1 : k + 1 - N = k - N := by omega
      rw [h1]
      simp

lemma enum_filter_map_fst (l : List PyMsg) (skip : Int) :
    (l.enum.filter (fun p => ((p.1 : Int) > skip : Bool))).map Prod.fst =
    (List.range l.length).filter (fun (i : Nat) => ((i : Int) > skip : Bool)) := by
  rw [← List.enum_map_fst l, List.filter_map]
  rfl

lemma insertMessages_frame (sid : String) (skip : Int) (st : DBState)
    (l : List (Nat × PyMsg)) :
    (stepResult (insertMessages sid skip st l)).projects = st.projects ∧
    (stepResult (insertMessages sid skip st l)).sessions = st.sessions ∧
    (stepResult (insertMessages sid skip st l)).tool_uses = st.tool_uses ∧
    ∃ rows, (stepResult (insertMessages sid skip st l)).messages = st.messages ++ rows ∧
      ∀ r ∈ rows, r.session_id = sid := by
  induction l generalizing st with
  | nil =>
    refine ⟨rfl, rfl, rfl, [], by simp [insertMessages, stepResult], ?_⟩
    intro r hr
    cases hr
  | cons p rest ih =>
    obtain ⟨idx, pm⟩ := p
    simp only [insertMessages]
    by_cases hle : (idx : Int) ≤ skip
    · simp only [if_pos hle]
      exact ih st
    · simp only [if_neg hle]
      cases hex : extract_text_from_content pm.content with
      | none =>
        refine ⟨rfl, rfl, rfl, [], by simp [stepResult], ?_⟩
        intro r hr
        cases hr
      | some text =>
        by_cases hok : msgInsertOk st sid pm = true
        · simp only [hok, if_pos]
          obtain ⟨hp, hs, ht, rows, hm, hall⟩ :=
            ih { st with messages := st.messages ++ [mkMsgRow sid idx pm text] }
          refine ⟨hp, hs, ht, mkMsgRow sid idx pm text :: rows, ?_, ?_⟩
          · rw [hm]
            simp
          · intro r hr
            rcases List.mem_cons.mp hr with h | h
            · subst h
              rfl
            · exact hall r h
        · simp only [Bool.not_eq_true] at hok
          refine ⟨by simp [hok, stepResult], by simp [hok, stepResult],
            by simp [hok, stepResult], [], by simp [hok, stepResult], ?_⟩
          intro r hr
          cases hr

lemma insertMessages_ok (sid : String) (skip : Int) (st st' : DBState)
    (l : List (Nat × PyMsg)) (h : insertMessages sid skip st l = .ok st') :
    ∃ rows, st'.messages = st.messages ++ rows ∧
      rows.map (fun r => r.message_index) =
        (l.map Prod.fst).filter (fun (i : Nat) => ((i : Int) > skip : Bool)) ∧
      ∀ r ∈ rows, r.session_id = sid := by
  induction l generalizing st with
  | nil =>
    simp only [insertMessages, Except.ok.injEq] at h
    subst h
    refine ⟨[], by simp, by simp, ?_⟩
    intro r hr
    cases hr
  | cons p rest ih =>
    obtain ⟨idx, pm⟩ := p
    simp only [insertMessages] at h
    by_cases hle : (idx : Int) ≤ skip
    · rw [if_pos hle] at h
      obtain ⟨rows, hm, hidx, hall⟩ := ih st h
      refine ⟨rows, hm, ?_, hall⟩
      have hd : (decide ((idx : Int) > skip)) = false := by
        simp only [decide_eq_false_iff_not]
        omega
      simp only [List.map_cons, List.filter_cons, hd]
      exact hidx
    · rw [if_neg hle] at h
      split at h
      · cases h
      · rename_i text hex
        split at h
        · rename_i hok
          obtain ⟨rows, hm, hidx, hall⟩ :=
            ih { st with messages := st.messages ++ [mkMsgRow sid idx pm text] } h
          have hd : (decide ((idx : Int) > skip)) = true := by
            simp only [decide_eq_true_eq]
            omega
          refine ⟨mkMsgRow sid idx pm text :: rows, ?_, ?_, ?_⟩
          · rw [hm]
            simp
          · simp only [List.map_cons, List.filter_cons, hd]
            rw [hidx]
            rfl
          · intro r hr
            rcases List.mem_cons.mp hr with hh | hh
            · subst hh
              rfl
            · exact hall r hh
        · cases h

lemma insertTools_frame (sid : String) (trs : List (JsonValue × PyToolResult))
    (st : DBState) (l : List (JsonValue × PyToolUse)) :
    (stepResult (insertTools sid trs st l)).projects = st.projects ∧
    (stepResult (insertTools sid trs st l)).sessions = st.sessions ∧
    (stepResult (insertTools sid trs st l)).messages = st.messages ∧
    ∃ rows, (stepResult (insertTools sid trs st l)).tool_uses = st.tool_uses ++ rows ∧
      ∀ r ∈ rows, r.session_id = sid ∧
        ∀ q ∈ st.tool_uses, q.tool_use_id ≠ r.tool_use_id := by
  induction l generalizing st with
  | nil =>
    refine ⟨rfl, rfl, rfl, [], by simp [insertTools, stepResult], ?_⟩
    intro r hr
    cases hr
  | cons p rest ih =>
    obtain ⟨tid, tu⟩ := p
    simp only [insertTools]
    split
    · refine ⟨rfl, rfl, rfl, [], by simp [stepResult], ?_⟩
      intro r hr
      cases hr
    · rename_i result hres
      by_cases hpar : toolParamsOk tid tu (toolResultErrorOf trs tid) = true
      · simp only [hpar, if_pos]
        by_cases hfk : st.sessions.any (fun r => r.session_id == sid) = true
        · simp only [hfk, if_pos]
          by_cases hig : toolIgnored st (textAffinity tid) tu = true
          · simp only [hig, if_pos]
            exact ih st
          · simp only [Bool.not_eq_true] at hig
            simp only [hig, Bool.false_eq_true, if_false]
            obtain ⟨hp, hs, hm, rows, htu, hall⟩ :=
              ih { st with tool_uses := st.tool_uses ++
                    [mkToolRow sid (textAffinity tid) tu result (toolResultErrorOf trs tid)] }
            refine ⟨hp, hs, hm,
              mkToolRow sid (textAffinity tid) tu result (toolResultErrorOf trs tid) :: rows,
              ?_, ?_⟩
            · rw [htu]
              simp
            · intro r hr
              rcases List.mem_cons.mp hr with hh | hh
              · subst hh
                refine ⟨rfl, ?_⟩
                intro q hq hqid
                have hnotany : st.tool_uses.any
                    (fun r => r.tool_use_id == textAffinity tid) = false := by
                  simp only [toolIgnored, Bool.or_eq_false_iff] at hig
                  exact hig.1.1
                rw [List.any_eq_false] at hnotany
                exact hnotany q hq (by simp [hqid, mkToolRow])
              · obtain ⟨hsid, hkeys⟩ := hall r hh
                refine ⟨hsid, ?_⟩
                intro q hq
                exact hkeys q (by simp [hq])
        · simp only [Bool.not_eq_true] at hfk
          simp only [hfk, Bool.false_eq_true, if_false]
          refine ⟨rfl, rfl, rfl, [], by simp [stepResult], ?_⟩
          intro r hr
          cases hr
      · simp only [Bool.not_eq_true] at hpar
        simp only [hpar, Bool.false_eq_true, if_false]
        refine ⟨rfl, rfl, rfl, [], by simp [stepResult], ?_⟩
        intro r hr
        cases hr

lemma writePhase_resultState (sid : String) (skip : Int) (acc : DecodeAcc) (n : Nat)
    (st1 : DBState) :
    (resultState (writePhase sid skip acc n st1)).projects = st1.projects ∧
    (resultState (writePhase sid skip acc n st1)).sessions = st1.sessions ∧
    (∃ rows, (resultState (writePhase sid skip acc n st1)).messages = st1.messages ++ rows ∧
      ∀ r ∈ rows, r.session_id = sid) ∧
    (∃ rows, (resultState (writePhase sid skip acc n st1)).tool_uses = st1.tool_uses ++ rows ∧
      ∀ r ∈ rows, r.session_id = sid ∧
        ∀ q ∈ st1.tool_uses, q.tool_use_id ≠ r.tool_use_id) := by
  unfold writePhase
  cases him : insertMessages sid skip st1 acc.messages.enum with
  | error s =>
    have hf := insertMessages_frame sid skip st1 acc.messages.enum
    rw [him] at hf
    simp only [stepResult] at hf
    obtain ⟨hp, hs, ht, rows, hm, hall⟩ := hf
    simp only [resultState]
    exact ⟨hp, hs, ⟨rows, hm, hall⟩, [], by simp [ht], by intro r hr; cases hr⟩
  | ok st2 =>
    have hf := insertMessages_frame sid skip st1 acc.messages.enum
    rw [him] at hf
    simp only [stepResult] at hf
    obtain ⟨hp, hs, ht, rows, hm, hall⟩ := hf
    cases hit : insertTools sid acc.tool_results st2 acc.tool_uses with
    | error s =>
      have hg := insertTools_frame sid acc.tool_results st2 acc.tool_uses
      rw [hit] at hg
      simp only [stepResult] at hg
      obtain ⟨hp2, hs2, hm2, rows2, ht2, hall2⟩ := hg
      dsimp only
      rw [hit]
      simp only [resultState]
      refine ⟨hp2.trans hp, hs2.trans hs, ⟨rows, hm2.trans hm, hall⟩,
        rows2, ?_, ?_⟩
      · rw [ht2, ht]
      · intro r hr
        obtain ⟨hsid, hkeys⟩ := hall2 r hr
        refine ⟨hsid, ?_⟩
        intro q hq
        apply hkeys
        rw [ht]
        exact hq
    | ok st3 =>
      have hg := insertTools_frame sid acc.tool_results st2 acc.tool_uses
      rw [hit] at hg
      simp only [stepResult] at hg
      obtain ⟨hp2, hs2, hm2, rows2, ht2, hall2⟩ := hg
      dsimp only
      rw [hit]
      simp only [resultState]
      refine ⟨hp2.trans hp, hs2.trans hs, ⟨rows, hm2.trans hm, hall⟩,
        rows2, ?_, ?_⟩
      · rw [ht2, ht]
      · intro r hr
        obtain ⟨hsid, hkeys⟩ := hall2 r hr
        refine ⟨hsid, ?_⟩
        intro q hq
        apply hkeys
        rw [ht]
        exact hq

lemma writePhase_ok (sid : String) (skip : Int) (acc : DecodeAcc) (n : Nat)
    (st1 st3 : DBState) (m t : Nat)
    (h : writePhase sid skip acc n st1 = .ok (st3, m, t)) :
    m = n ∧ t = acc.tool_uses.length ∧
    st3.projects = st1.projects ∧ st3.sessions = st1.sessions ∧
    ∃ rows, st3.messages = st1.messages ++ rows ∧
      rows.map (fun r => r.message_index) =
        (List.range acc.messages.length).filter (fun (i : Nat) => ((i : Int) > skip : Bool)) ∧
      ∀ r ∈ rows, r.session_id = sid := by
  unfold writePhase at h
  split at h
  · cases h
  · rename_i st2 him
    split at h
    · cases h
    · rename_i st3' hit
      simp only [Except.ok.injEq, Prod.mk.injEq] at h
      obtain ⟨hst, hm, htn⟩ := h
      subst hst
      subst hm
      subst htn
      have hf := insertMessages_frame sid skip st1 acc.messages.enum
      rw [him] at hf
      simp only [stepResult] at hf
      obtain ⟨hfp, hfs, hft, _, _, _⟩ := hf
      have hg := insertTools_frame sid acc.tool_results st2 acc.tool_uses
      rw [hit] at hg
      simp only [stepResult] at hg
      obtain ⟨hgp, hgs, hgm, _, _, _⟩ := hg
      obtain ⟨rows, hrm, hri, hra⟩ := insertMessages_ok sid skip st1 st2 acc.messages.enum him
      refine ⟨rfl, rfl, hgp.trans hfp, hgs.trans hfs, rows, ?_, ?_, hra⟩
      · rw [hgm, hrm]
      · rw [hri, ← List.enum_map_fst acc.messages]

/-- The store after the incremental-branch session UPDATE of
process_session, before the insert loops run. -/
def incrementalSessionsState (st : DBState) (sid : String) (acc : DecodeAcc) : DBState :=
  { st with
    sessions := updateSessionRow st.sessions sid ((acc.messages.getLast!).timestamp)
      acc.messages.length (toolCountDB st sid + acc.tool_uses.length) }

/-- The store after the fresh-branch session INSERT of process_session,
before the insert loops run. -/
def freshSessionsState (st : DBState) (sid pid : String) (acc : DecodeAcc) : DBState :=
  { st with
    sessions := st.sessions ++
      [⟨sid, pid, (acc.messages.headI).timestamp, (acc.messages.getLast!).timestamp,
        acc.messages.length, acc.tool_uses.length⟩] }

lemma process_session_shape (evs : List ReadEvent) (sid pid : String) (st : DBState) :
    process_session evs sid pid st = .ok (st, 0, 0) ∨
    process_session evs sid pid st = .error st ∨
    ∃ acc st1,
      decodeEntries (skipUntilIndex st sid) ⟨[], [], []⟩ (parse_jsonl_file evs) = .ok acc ∧
      acc.messages ≠ [] ∧
      process_session evs sid pid st =
        writePhase sid (skipUntilIndex st sid) acc
          (acc.messages.enum.filter
            (fun p => ((p.1 : Int) > skipUntilIndex st sid : Bool))).length st1 ∧
      ((0 ≤ skipUntilIndex st sid ∧
          acc.messages.enum.filter
            (fun p => ((p.1 : Int) > skipUntilIndex st sid : Bool)) ≠ [] ∧
          st1 = incrementalSessionsState st sid acc) ∨
        (¬ 0 ≤ skipUntilIndex st sid ∧
          (∀ r ∈ st.sessions, r.session_id ≠ sid) ∧
          st1 = freshSessionsState st sid pid acc)) := by
  by_cases hemp : (parse_jsonl_file evs).isEmpty = true
  · left
    simp only [process_session, hemp, if_true]
  · cases hdec : decodeEntries (skipUntilIndex st sid) ⟨[], [], []⟩ (parse_jsonl_file evs) with
    | error u =>
      right
      left
      simp only [process_session, hemp, Bool.false_eq_true, if_false, hdec]
    | ok acc =>
      by_cases hmsg : acc.messages.isEmpty = true
      · left
        simp only [process_session, hemp, Bool.false_eq_true, if_false, hdec, hmsg, if_true]
      · by_cases hnop : (acc.messages.enum.filter
            (fun p => ((p.1 : Int) > skipUntilIndex st sid : Bool))).isEmpty = true ∧
            0 ≤ skipUntilIndex st sid
        · left
          simp only [process_session, hemp, Bool.false_eq_true, if_false, hdec, hmsg]
          rw [if_pos hnop]
        · by_cases hskip : 0 ≤ skipUntilIndex st sid
          · by_cases hstor : sqlStorable ((acc.messages.getLast!).timestamp) = true
            · right
              right
              refine ⟨acc, incrementalSessionsState st sid acc, rfl, by simpa using hmsg,
                ?_, Or.inl ⟨hskip, ?_, rfl⟩⟩
              · simp only [process_session, hemp, Bool.false_eq_true, if_false, hdec, hmsg]
                rw [if_neg hnop, if_pos hskip, if_pos hstor]
                simp only [if_pos hskip]
                rfl
              · intro hnil
                exact hnop ⟨by simp [hnil], hskip⟩
            · right
              left
              simp only [process_session, hemp, Bool.false_eq_true, if_false, hdec, hmsg]
              rw [if_neg hnop, if_pos hskip, if_neg hstor]
          · by_cases hstor : (sqlStorable ((acc.messages.headI).timestamp) &&
                sqlStorable ((acc.messages.getLast!).timestamp)) = true
            · by_cases hdup : st.sessions.any (fun r => r.session_id == sid) = true ∨
                  ¬ (st.projects.contains pid) = true
              · left
                simp only [process_session, hemp, Bool.false_eq_true, if_false, hdec, hmsg]
                rw [if_neg hnop, if_neg hskip, if_pos hstor, if_pos hdup]
              · right
                right
                refine ⟨acc, freshSessionsState st sid pid acc, rfl, by simpa using hmsg,
                  ?_, Or.inr ⟨hskip, ?_, rfl⟩⟩
                · simp only [process_session, hemp, Bool.false_eq_true, if_false, hdec, hmsg]
                  rw [if_neg hnop, if_neg hskip, if_pos hstor, if_neg hdup]
                  simp only [if_neg hskip]
                  rfl
                · intro r hr hcontra
                  push_neg at hdup
                  have hany : (st.sessions.any fun q => q.session_id == sid) = false := by
                    simpa using hdup.1
                  rw [List.any_eq_false] at hany
                  exact hany r hr (by simp [hcontra])
            · right
              left
              simp only [process_session, hemp, Bool.false_eq_true, if_false, hdec, hmsg]
              rw [if_neg hnop, if_neg hskip, if_neg hstor]

/-- A transcript entry with a timestamp and a message record, as written by
the assistant: the top-level fields consumed by the importer. -/
def mkEntry (ts : String) (role : String) (content : JsonValue) : JsonValue :=
  .obj [("timestamp", .str ts), ("message", .obj [("role", .str role), ("content", content)])]

/-- A tool_use content part. -/
def toolUseItem (id name : String) (input : JsonValue) : JsonValue :=
  .obj [("type", .str "tool_use"), ("id", .str id), ("name", .str name), ("input", input)]

/-- A tool_result content part. -/
def toolResultItem (id : String) (content : JsonValue) : JsonValue :=
  .obj [("type", .str "tool_result"), ("tool_use_id", .str id), ("content", content)]

/-- A successfully read and decoded line. -/
def ev (v : JsonValue) : ReadEvent := .line (.good v)

/-- A store holding only the project row the sample sessions belong to. -/
def scenarioDB0 : DBState := ⟨["p"], [], [], []⟩

/-- The three-message sample session of the spec: a user turn, an assistant
turn with a text part and a Bash tool call, and a user turn carrying the
tool result. -/
def scenarioEvents : List ReadEvent :=
  [ev (mkEntry "t0" "user" (.str "hello")),
   ev (mkEntry "t1" "assistant"
     (.arr [.obj [("type", .str "text"), ("text", .str "running")],
            toolUseItem "x" "Bash" (.obj [("command", .str "ls")])])),
   ev (mkEntry "t2" "user" (.arr [toolResultItem "x" (.str "file1\nfile2")]))]

/-- The store after importing the sample session once. -/
def scenarioSt1 : DBState :=
  resultState (process_session scenarioEvents "s" "p" scenarioDB0)

/-- The accumulator of a successful decode (used to instantiate decode
hypotheses at concrete inputs). -/
def accOf : Except Unit DecodeAcc → DecodeAcc
  | .ok a => a
  | .error _ => ⟨[], [], []⟩

/-- C10: if reading a session file fails with an I/O error, parse_jsonl_file
returns the empty entry list — discarding even the lines decoded before the
failure — and process_session treats the session as having zero records:
it returns (0, 0) without raising and without touching the store, leaving
the session eligible for retry on the next run. -/
theorem c10_io_error_empty_decode (pre post : List ReadEvent) (sid pid : String)
    (st : DBState) :
    parse_jsonl_file (pre ++ .ioError :: post) = [] ∧
    process_session (pre ++ .ioError :: post) sid pid st = .ok (st, 0, 0) := by
  have hp : parse_jsonl_file (pre ++ .ioError :: post) = [] := parseGo_ioError pre post []
  refine ⟨hp, ?_⟩
  simp only [process_session, hp]
  rfl

/-- C1: re-importing an unchanged session file is a no-op: when the
persisted maximum message index equals the last index of the decoded file,
process_session returns (0, 0) with the store exactly unchanged — no
message row, no tool row, and no session-row update. -/
theorem c1_unchanged_reimport_noop (evs : List ReadEvent) (sid pid : String)
    (st : DBState) (acc : DecodeAcc)
    (hdec : decodeEntries (skipUntilIndex st sid) ⟨[], [], []⟩ (parse_jsonl_file evs) = .ok acc)
    (hne : acc.messages ≠ [])
    (hw : skipUntilIndex st sid = (acc.messages.length : Int) - 1) :
    process_session evs sid pid st = .ok (st, 0, 0) := by
  have hlen : 0 < acc.messages.length := List.length_pos.mpr hne
  have hfilter : acc.messages.enum.filter
      (fun p => ((p.1 : Int) > skipUntilIndex st sid : Bool)) = [] := by
    rw [List.filter_eq_nil_iff]
    intro p hp
    have hmem := List.mem_map_of_mem Prod.fst hp
    rw [List.enum_map_fst] at hmem
    have hlt : p.1 < acc.messages.length := List.mem_range.mp hmem
    simp only [decide_eq_true_eq, not_lt]
    omega
  by_cases hemp : (parse_jsonl_file evs).isEmpty = true
  · simp only [process_session, hemp, if_true]
  · simp only [process_session, hemp, Bool.false_eq_true, if_false, hdec]
    by_cases hmsg : acc.messages.isEmpty = true
    · rw [if_pos hmsg]
    · rw [if_neg hmsg, if_pos ⟨by rw [hfilter]; rfl, by omega⟩]

/-- Witness for C1 at the sample session: after one import of the
three-message file, a second import of the same file returns (0, 0) and an
unchanged store. -/
theorem c1_witness :
    process_session scenarioEvents "s" "p" scenarioSt1 = .ok (scenarioSt1, 0, 0) :=
  c1_unchanged_reimport_noop scenarioEvents "s" "p" scenarioSt1
    (accOf (decodeEntries (skipUntilIndex scenarioSt1 "s") ⟨[], [], []⟩
      (parse_jsonl_file scenarioEvents)))
    (by decide) (by decide) (by decide)

/-- C9: an import pass never rewrites an existing message or tool row.
Whatever the input file and store, and whether or not the pass raised, the
resulting store keeps the project rows unchanged, keeps every existing
message row and tool row in place (new rows are only appended after them),
and the session table is either extended with a new row or mutated only
through updateSessionRow, which touches nothing but end_time,
message_count and tool_use_count of the rows of the processed session. -/
theorem c9_frame_no_rewrite (evs : List ReadEvent) (sid pid : String) (st : DBState) :
    (resultState (process_session evs sid pid st)).projects = st.projects ∧
    (∃ suffix, (resultState (process_session evs sid pid st)).messages =
      st.messages ++ suffix) ∧
    (∃ suffix, (resultState (process_session evs sid pid st)).tool_uses =
      st.tool_uses ++ suffix) ∧
    ((∃ tail, (resultState (process_session evs sid pid st)).sessions =
        st.sessions ++ tail) ∨
     (∃ et cnt tcnt, (resultState (process_session evs sid pid st)).sessions =
        updateSessionRow st.sessions sid et cnt tcnt)) := by
  rcases process_session_shape evs sid pid st with h | h | ⟨acc, st1, _, _, heq, hbr⟩
  · rw [h]
    exact ⟨rfl, ⟨[], by simp [resultState]⟩, ⟨[], by simp [resultState]⟩,
      Or.inl ⟨[], by simp [resultState]⟩⟩
  · rw [h]
    exact ⟨rfl, ⟨[], by simp [resultState]⟩, ⟨[], by simp [resultState]⟩,
      Or.inl ⟨[], by simp [resultState]⟩⟩
  · rw [heq]
    obtain ⟨hp, hs, ⟨rows, hm, _⟩, ⟨rows2, ht, _⟩⟩ :=
      writePhase_resultState sid (skipUntilIndex st sid) acc
        (acc.messages.enum.filter
          (fun p => ((p.1 : Int) > skipUntilIndex st sid : Bool))).length st1
    rcases hbr with ⟨_, _, hst1⟩ | ⟨_, _, hst1⟩
    · subst hst1
      refine ⟨hp, ⟨rows, hm⟩, ⟨rows2, ht⟩, Or.inr ?_⟩
      exact ⟨(acc.messages.getLast!).timestamp, acc.messages.length,
        toolCountDB st sid + acc.tool_uses.length, hs⟩
    · subst hst1
      refine ⟨hp, ⟨rows, hm⟩, ⟨rows2, ht⟩, Or.inl ?_⟩
      refine ⟨[⟨sid, pid, (acc.messages.headI).timestamp, (acc.messages.getLast!).timestamp,
        acc.messages.length, acc.tool_uses.length⟩], ?_⟩
      rw [hs]
      rfl

lemma process_session_tools (evs : List ReadEvent) (sid pid : String) (st : DBState) :
    ∃ suffix, (resultState (process_session evs sid pid st)).tool_uses =
      st.tool_uses ++ suffix ∧
      ∀ r ∈ suffix, ∀ q ∈ st.tool_uses, q.tool_use_id ≠ r.tool_use_id := by
  rcases process_session_shape evs sid pid st with h | h | ⟨acc, st1, _, _, heq, hbr⟩
  · rw [h]
    exact ⟨[], by simp [resultState], by intro r hr; cases hr⟩
  · rw [h]
    exact ⟨[], by simp [resultState], by intro r hr; cases hr⟩
  · rw [heq]
    obtain ⟨_, _, _, ⟨rows2, ht, hkeys⟩⟩ :=
      writePhase_resultState sid (skipUntilIndex st sid) acc
        (acc.messages.enum.filter
          (fun p => ((p.1 : Int) > skipUntilIndex st sid : Bool))).length st1
    have htu : st1.tool_uses = st.tool_uses := by
      rcases hbr with ⟨_, _, hst1⟩ | ⟨_, _, hst1⟩
      · subst hst1
        rfl
      · subst hst1
        rfl
    refine ⟨rows2, ?_, ?_⟩
    · rw [ht, htu]
    · intro r hr q hq
      exact (hkeys r hr).2 q (by rw [htu]; exact hq)

/-- C8: a tool_use_id that already has a persisted row keeps exactly that
row through any further import pass, and the duplicate insert is dropped
silently, never by raising. First conjunct: whatever the pass does, the
first-imported row — with its session_id, message_index, name, input and
result — remains the unique row for the id. Second conjunct: the insert
step for an invocation whose id already has a row is exactly the identity
on the store followed by the rest of the loop — INSERT OR IGNORE skips the
row without taking the error branch (the remaining hypotheses only rule
out failures unrelated to the duplicate: unstorable parameters, a missing
session row, a result whose flattening raises). -/
theorem c8_duplicate_tool_id_first_wins (evs : List ReadEvent) (sid pid : String)
    (st : DBState) (tid : String) (r : ToolRow)
    (huniq : st.tool_uses.filter (fun q => q.tool_use_id == tid) = [r]) :
    ((resultState (process_session evs sid pid st)).tool_uses.filter
      (fun q => q.tool_use_id == tid) = [r]) ∧
    (∀ (trs : List (JsonValue × PyToolResult)) (tid2 : JsonValue) (tu : PyToolUse)
        (rest : List (JsonValue × PyToolUse)) (st0 : DBState),
      textAffinity tid2 = tid →
      r ∈ st0.tool_uses →
      toolParamsOk tid2 tu (toolResultErrorOf trs tid2) = true →
      st0.sessions.any (fun q => q.session_id == sid) = true →
      (extract_tool_result_content (toolResultContentOf trs tid2)).isSome = true →
      insertTools sid trs st0 ((tid2, tu) :: rest) = insertTools sid trs st0 rest) := by
  have hrmem : r ∈ st.tool_uses.filter (fun q => q.tool_use_id == tid) := by
    rw [huniq]
    exact List.mem_cons_self r []
  have hr : r ∈ st.tool_uses := List.mem_of_mem_filter hrmem
  have hrtid : r.tool_use_id = tid := by
    have := (List.mem_filter.mp hrmem).2
    simpa using this
  constructor
  · obtain ⟨suffix, heq, hkeys⟩ := process_session_tools evs sid pid st
    have hsfx : suffix.filter (fun q => q.tool_use_id == tid) = [] := by
      rw [List.filter_eq_nil_iff]
      intro q hq hcontra
      have hqtid : q.tool_use_id = tid := by simpa using hcontra
      exact hkeys q hq r hr (by rw [hrtid, hqtid])
    rw [heq, List.filter_append, huniq, hsfx, List.append_nil]
  · intro trs tid2 tu rest st0 haff hr0 hpar hfk hsome
    obtain ⟨res, hres⟩ := Option.isSome_iff_exists.mp hsome
    have hig : toolIgnored st0 (textAffinity tid2) tu = true := by
      have hany : st0.tool_uses.any (fun q => q.tool_use_id == textAffinity tid2) = true := by
        rw [List.any_eq_true]
        exact ⟨r, hr0, by simp [haff, hrtid]⟩
      simp [toolIgnored, hany]
    simp only [insertTools, hres, hpar, if_true, hfk, hig]

/-- A one-message session of project p that invokes tool x (no result). -/
def dupToolEventsA : List ReadEvent :=
  [ev (mkEntry "t0" "assistant" (.arr [toolUseItem "x" "Bash" (.obj [("command", .str "ls")])]))]

/-- A different one-message session that reuses the same tool id x. -/
def dupToolEventsB : List ReadEvent :=
  [ev (mkEntry "u0" "assistant" (.arr [toolUseItem "x" "Bash" (.obj [("command", .str "pwd")])]))]

/-- The store after importing session A. -/
def dupToolStA : DBState := resultState (process_session dupToolEventsA "A" "p" scenarioDB0)

/-- The tool row persisted for id x by session A. -/
def xRow : ToolRow :=
  ⟨"x", "A", 0, .str "Bash", some "\x7b\"command\": \"ls\"\x7d", some "", .bool false, .str "t0"⟩

/-- Witness for C8: session A persisted the row for id x; importing session
B, whose file reuses id x with a different input, leaves exactly that row
for x in the store, and the duplicate-bearing pass completes normally —
it returns ok with one message inserted and one invocation found, raising
no exception. -/
theorem c8_witness :
    ((resultState (process_session dupToolEventsB "B" "p" dupToolStA)).tool_uses.filter
      (fun q => q.tool_use_id == "x") = [xRow]) ∧
    process_session dupToolEventsB "B" "p" dupToolStA =
      .ok (resultState (process_session dupToolEventsB "B" "p" dupToolStA), 1, 1) :=
  ⟨(c8_duplicate_tool_id_first_wins dupToolEventsB "B" "p" dupToolStA "x" xRow (by decide)).1,
    by decide⟩

/-- The per-item condition under which the two flatteners treat a content
part identically: a dict part carries a text field only when its type tag
is exactly text, and a dict part without a text field also has no content
field (so the fallback of extract_tool_result_content never fires). -/
def flattenAgreeItem : JsonValue → Bool
  | .obj fields =>
    if ((JsonValue.obj fields).get? "text").isSome
    then pyGet (.obj fields) "type" == .str "text"
    else !((JsonValue.obj fields).get? "content").isSome
  | _ => true

/-- The payload-level agreement condition: every part of a list payload
satisfies flattenAgreeItem; non-list payloads always agree. -/
def flattenAgree : JsonValue → Bool
  | .arr items => items.all flattenAgreeItem
  | _ => true

lemma parts_eq_of_agree (items : List JsonValue)
    (h : items.all flattenAgreeItem = true) :
    textPartsOf items = resultPartsOf items := by
  induction items with
  | nil => rfl
  | cons item rest ih =>
    rw [List.all_cons, Bool.and_eq_true] at h
    obtain ⟨hitem, hrest⟩ := h
    have ihr := ih hrest
    cases item with
    | obj fields =>
      simp only [textPartsOf, resultPartsOf]
      by_cases hsome : ((JsonValue.obj fields).get? "text").isSome = true
      · have htype : (pyGet (.obj fields) "type" == .str "text") = true := by
          simp only [flattenAgreeItem, hsome, if_true] at hitem
          exact hitem
        rw [hsome, htype]
        simp only [Bool.and_true, if_true, ihr]
      · have hcont : (((JsonValue.obj fields).get? "content").isSome) = false := by
          simp only [flattenAgreeItem, hsome, Bool.false_eq_true, if_false] at hitem
          simpa using hitem
        have hsome2 : (((JsonValue.obj fields).get? "text").isSome) = false := by
          simpa using hsome
        rw [hsome2, hcont]
        simp only [Bool.and_false, Bool.false_eq_true, if_false, ihr]
    | str s =>
      simp only [textPartsOf, resultPartsOf, ihr]
    | null => exact ihr
    | bool b => exact ihr
    | num n => exact ihr
    | arr xs => exact ihr

/-- C4 (amended): the two flatteners agree on every plain-string payload
and every non-list payload, and on list payloads whose dict parts carry a
text field only under a text type tag and carry no content-field fallback;
they are not the same function in general (see the counterexample), because
extract_tool_result_content harvests text fields regardless of the type
tag and additionally stringifies content fields. -/
theorem c4_flatten_agreement (content : JsonValue) (h : flattenAgree content = true) :
    extract_text_from_content content = extract_tool_result_content content := by
  cases content with
  | arr items =>
    simp only [extract_text_from_content, extract_tool_result_content]
    rw [parts_eq_of_agree items (by simpa [flattenAgree] using h)]
  | null => rfl
  | bool b => rfl
  | num n => rfl
  | str s => rfl
  | obj fields => rfl

/-- A list payload on which the two flatteners differ: a part tagged
tool_use that nevertheless carries a text field. -/
def c4CexContent : JsonValue := .arr [.obj [("type", .str "tool_use"), ("text", .str "hi")]]

/-- Counterexample for C4 as stated: on a tool_use part carrying a text
field, extract_text_from_content skips the part (wrong type tag) while
extract_tool_result_content harvests it, so the two functions differ. -/
theorem c4_counterexample :
    extract_text_from_content c4CexContent = some "" ∧
    extract_tool_result_content c4CexContent = some "hi" ∧
    extract_text_from_content c4CexContent ≠ extract_tool_result_content c4CexContent := by
  decide

/-- A well-formed mixed payload: a text part, a bare string part, a
tool_use part without text, and a number part. -/
def c4WitnessContent : JsonValue :=
  .arr [.obj [("type", .str "text"), ("text", .str "a")], .str "b",
        .obj [("type", .str "tool_use"), ("id", .str "x"), ("name", .str "Bash")], .num 3]

/-- Witness for the amended C4 on a mixed payload satisfying the agreement
condition. -/
theorem c4_witness :
    extract_text_from_content c4WitnessContent = extract_tool_result_content c4WitnessContent :=
  c4_flatten_agreement c4WitnessContent (by decide)

/-- C5 (amended): a tool invocation processed in a pass that found no
matching tool-result record is persisted with tool_result equal to the
empty string — the flattening of the default empty content, not SQL
NULL — and is_error false: the insert step appends exactly that row. -/
theorem c5_missing_result_empty_string (sid : String)
    (trs : List (JsonValue × PyToolResult)) (st : DBState) (tid : JsonValue)
    (tu : PyToolUse) (rest : List (JsonValue × PyToolUse))
    (hnores : assocGet? trs tid = none)
    (hpar : toolParamsOk tid tu (toolResultErrorOf trs tid) = true)
    (hfk : st.sessions.any (fun r => r.session_id == sid) = true)
    (hnig : toolIgnored st (textAffinity tid) tu = false) :
    insertTools sid trs st ((tid, tu) :: rest) =
      insertTools sid trs
        { st with tool_uses := st.tool_uses ++
            [mkToolRow sid (textAffinity tid) tu "" (toolResultErrorOf trs tid)] } rest ∧
    (mkToolRow sid (textAffinity tid) tu "" (toolResultErrorOf trs tid)).tool_result =
      some "" ∧
    (mkToolRow sid (textAffinity tid) tu "" (toolResultErrorOf trs tid)).is_error =
      .bool false := by
  have hres : extract_tool_result_content (toolResultContentOf trs tid) = some "" := by
    rw [show toolResultContentOf trs tid = .str "" from by simp [toolResultContentOf, hnores]]
    rfl
  refine ⟨?_, rfl, ?_⟩
  · simp only [insertTools, hres, hpar, if_true, hfk, hnig, Bool.false_eq_true, if_false]
  · simp [mkToolRow, toolResultErrorOf, hnores]

/-- Counterexample for C5 as stated: importing a session whose only tool
invocation has no matching result persists a tool row whose tool_result is
the empty string, not NULL (and is_error is false). -/
theorem c5_counterexample :
    process_session dupToolEventsA "A" "p" scenarioDB0 = .ok (dupToolStA, 1, 1) ∧
    dupToolStA.tool_uses.map (fun r => r.tool_result) = [some ""] ∧
    dupToolStA.tool_uses.map (fun r => r.is_error) = [.bool false] ∧
    (some "" : Option String) ≠ none := by
  decide

/-- A store holding one session row for s under project p. -/
def c5WitnessSt : DBState := ⟨["p"], [⟨"s", "p", .str "t0", .str "t0", 1, 1⟩], [], []⟩

/-- A tool invocation value as collected by the decode loop. -/
def c5WitnessTu : PyToolUse := ⟨.str "Bash", .obj [("command", .str "ls")], .str "t0", 0⟩

/-- Witness for the amended C5: with no tool_results entry for id x, the
inserted row carries the empty string and a false error flag. -/
theorem c5_witness :
    insertTools "s" [] c5WitnessSt [(.str "x", c5WitnessTu)] =
      insertTools "s" []
        { c5WitnessSt with tool_uses := c5WitnessSt.tool_uses ++
            [mkToolRow "s" (textAffinity (.str "x")) c5WitnessTu ""
              (toolResultErrorOf [] (.str "x"))] } [] ∧
    (mkToolRow "s" (textAffinity (.str "x")) c5WitnessTu ""
      (toolResultErrorOf [] (.str "x"))).tool_result = some "" ∧
    (mkToolRow "s" (textAffinity (.str "x")) c5WitnessTu ""
      (toolResultErrorOf [] (.str "x"))).is_error = .bool false :=
  c5_missing_result_empty_string "s" [] c5WitnessSt (.str "x") c5WitnessTu []
    (by decide) (by decide) (by decide) (by decide)

/-- C6 (amended): the message writer copies the six token-usage values of
the source record into the persisted row for every role alike — it
performs no role check — so a user row has null token columns exactly when
its source record carries no usage fields. -/
theorem c6_usage_copied_for_any_role (sid : String) (skip : Int) (st : DBState)
    (idx : Nat) (pm : PyMsg) (rest : List (Nat × PyMsg)) (text : String)
    (hnew : ¬ (idx : Int) ≤ skip)
    (hex : extract_text_from_content pm.content = some text)
    (hok : msgInsertOk st sid pm = true) :
    insertMessages sid skip st ((idx, pm) :: rest) =
      insertMessages sid skip
        { st with messages := st.messages ++ [mkMsgRow sid idx pm text] } rest ∧
    (mkMsgRow sid idx pm text).role = pm.role ∧
    (mkMsgRow sid idx pm text).input_tokens = pm.usage.input_tokens ∧
    (mkMsgRow sid idx pm text).output_tokens = pm.usage.output_tokens ∧
    (mkMsgRow sid idx pm text).cache_creation_input_tokens =
      pm.usage.cache_creation_input_tokens ∧
    (mkMsgRow sid idx pm text).cache_read_input_tokens =
      pm.usage.cache_read_input_tokens ∧
    (mkMsgRow sid idx pm text).cache_ephemeral_5m_tokens =
      pm.usage.cache_ephemeral_5m_tokens ∧
    (mkMsgRow sid idx pm text).cache_ephemeral_1h_tokens =
      pm.usage.cache_ephemeral_1h_tokens := by
  refine ⟨?_, rfl, rfl, rfl, rfl, rfl, rfl, rfl⟩
  simp only [insertMessages, if_neg hnew, hex, hok, if_true]

/-- A session file whose single entry is a user message that carries a
usage block. -/
def c6Events : List ReadEvent :=
  [ev (.obj [("timestamp", .str "t0"),
    ("message", .obj [("role", .str "user"), ("content", .str "hi"),
      ("usage", .obj [("input_tokens", .num 5)])])])]

/-- The store after importing that file. -/
def c6St : DBState := resultState (process_session c6Events "s" "p" scenarioDB0)

/-- Counterexample for C6 as stated: a persisted message row with role user
carries input_tokens 5, not NULL, because the source record carried a usage
block and the importer copies usage fields regardless of role. -/
theorem c6_counterexample :
    process_session c6Events "s" "p" scenarioDB0 = .ok (c6St, 1, 0) ∧
    c6St.messages.map (fun r => (r.role, r.input_tokens)) = [(.str "user", .num 5)] ∧
    JsonValue.num 5 ≠ JsonValue.null := by
  decide

/-- A user message record carrying a usage block, as built by the decode
loop. -/
def c6WitnessPm : PyMsg :=
  ⟨.str "user", .str "hi", .str "t0", ⟨.num 5, .null, .null, .null, .null, .null⟩⟩

/-- Witness for the amended C6: inserting a user message whose record
carries input_tokens 5 stores 5 in the user row. -/
theorem c6_witness :
    insertMessages "s" (-1) c5WitnessSt [(0, c6WitnessPm)] =
      insertMessages "s" (-1)
        { c5WitnessSt with messages := c5WitnessSt.messages ++
            [mkMsgRow "s" 0 c6WitnessPm "hi"] } [] ∧
    (mkMsgRow "s" 0 c6WitnessPm "hi").role = c6WitnessPm.role ∧
    (mkMsgRow "s" 0 c6WitnessPm "hi").input_tokens = c6WitnessPm.usage.input_tokens ∧
    (mkMsgRow "s" 0 c6WitnessPm "hi").output_tokens = c6WitnessPm.usage.output_tokens ∧
    (mkMsgRow "s" 0 c6WitnessPm "hi").cache_creation_input_tokens =
      c6WitnessPm.usage.cache_creation_input_tokens ∧
    (mkMsgRow "s" 0 c6WitnessPm "hi").cache_read_input_tokens =
      c6WitnessPm.usage.cache_read_input_tokens ∧
    (mkMsgRow "s" 0 c6WitnessPm "hi").cache_ephemeral_5m_tokens =
      c6WitnessPm.usage.cache_ephemeral_5m_tokens ∧
    (mkMsgRow "s" 0 c6WitnessPm "hi").cache_ephemeral_1h_tokens =
      c6WitnessPm.usage.cache_ephemeral_1h_tokens :=
  c6_usage_copied_for_any_role "s" (-1) c5WitnessSt 0 c6WitnessPm [] "hi"
    (by decide) (by decide) (by decide)

lemma updateSessionRow_fields (rows : List SessionRow) (sid : String) (et : JsonValue)
    (cnt tcnt : Nat) (r' : SessionRow) (h : r' ∈ updateSessionRow rows sid et cnt tcnt)
    (hsid : r'.session_id = sid) :
    r'.end_time = et ∧ r'.message_count = cnt ∧ r'.tool_use_count = tcnt := by
  unfold updateSessionRow at h
  obtain ⟨r, hr, hval⟩ := List.mem_map.mp h
  by_cases hcase : (r.session_id == sid) = true
  · rw [if_pos hcase] at hval
    subst hval
    exact ⟨rfl, rfl, rfl⟩
  · rw [if_neg hcase] at hval
    subst hval
    exact absurd (by simp [hsid]) hcase

lemma updateSessionRow_mem (rows : List SessionRow) (sid : String) (et : JsonValue)
    (cnt tcnt : Nat) (r : SessionRow) (hr : r ∈ rows) (hsid : r.session_id = sid) :
    ({ r with end_time := et, message_count := cnt, tool_use_count := tcnt } : SessionRow) ∈
      updateSessionRow rows sid et cnt tcnt := by
  unfold updateSessionRow
  refine List.mem_map.mpr ⟨r, hr, ?_⟩
  rw [if_pos (by simp [hsid])]

/-- C7 (amended): on an incremental pass with a non-empty insert set, the
updated tool_use_count of the session row equals the exact count of
already persisted tool rows for the session — recomputed from the store at
the start of the pass — plus the number of invocations found in this pass
(the third component of the returned triple). It is not the previously
recorded session-row value plus that number: the two bases differ whenever
a previously found invocation was dropped as a cross-session duplicate
(see the counterexample). -/
theorem c7_tool_count_base_is_recount (evs : List ReadEvent) (sid pid : String)
    (st : DBState) (acc : DecodeAcc) (st' : DBState) (m t : Nat)
    (hdec : decodeEntries (skipUntilIndex st sid) ⟨[], [], []⟩ (parse_jsonl_file evs) = .ok acc)
    (hinc : 0 ≤ skipUntilIndex st sid)
    (hok : process_session evs sid pid st = .ok (st', m, t))
    (hm : 1 ≤ m) :
    t = acc.tool_uses.length ∧
    ∀ row ∈ st'.sessions, row.session_id = sid →
      row.tool_use_count = toolCountDB st sid + acc.tool_uses.length := by
  rcases process_session_shape evs sid pid st with h | h | ⟨acc2, st1, hdec2, hne, heq, hbr⟩
  · rw [h] at hok
    simp only [Except.ok.injEq, Prod.mk.injEq] at hok
    omega
  · rw [h] at hok
    cases hok
  · have hacc : acc2 = acc := by
      rw [hdec] at hdec2
      exact (Except.ok.injEq _ _).mp hdec2.symm
    subst hacc
    rw [heq] at hok
    obtain ⟨hmn, ht, hp3, hs3, _⟩ := writePhase_ok _ _ _ _ _ _ _ _ hok
    rcases hbr with ⟨_, _, hst1⟩ | ⟨hninc, _, _⟩
    · subst hst1
      refine ⟨ht, ?_⟩
      intro row hrow hrsid
      rw [hs3] at hrow
      exact (updateSessionRow_fields _ _ _ _ _ _ hrow hrsid).2.2
    · exact absurd hinc hninc

/-- The store after importing session B (whose only invocation reuses
tool id x, silently dropped): the session row of B records one tool use
while zero tool rows belong to B. -/
def dupToolStAB : DBState := resultState (process_session dupToolEventsB "B" "p" dupToolStA)

/-- The file of session B after one assistant message invoking tool y was
appended. -/
def grownBEvents : List ReadEvent :=
  dupToolEventsB ++
    [ev (mkEntry "u1" "assistant" (.arr [toolUseItem "y" "Read" (.obj [("file", .str "a")])]))]

/-- The store after re-importing the grown file of session B. -/
def dupToolStB2 : DBState := resultState (process_session grownBEvents "B" "p" dupToolStAB)

/-- Counterexample for C7 as stated: on the incremental pass over session B
the pass finds exactly one invocation (the returned tool count is 1) and
the previously recorded tool_use_count of the B session row is 1, so the
claim predicts an updated value of 1 + 1 = 2; the code instead recounts
the persisted tool rows of B (zero, because the x row belongs to session
A) and stores 0 + 1 = 1. -/
theorem c7_counterexample :
    process_session grownBEvents "B" "p" dupToolStAB = .ok (dupToolStB2, 1, 1) ∧
    sessionToolCount dupToolStAB "B" = some 1 ∧
    sessionToolCount dupToolStB2 "B" = some 1 ∧
    sessionToolCount dupToolStB2 "B" ≠ some (1 + 1) := by
  decide

/-- Witness for the amended C7 on the session-B chain: the updated count
equals the recount of persisted B tool rows (zero) plus the one invocation
found in the pass. -/
theorem c7_witness :
    (1 : Nat) = (accOf (decodeEntries (skipUntilIndex dupToolStAB "B") ⟨[], [], []⟩
      (parse_jsonl_file grownBEvents))).tool_uses.length ∧
    ∀ row ∈ dupToolStB2.sessions, row.session_id = "B" →
      row.tool_use_count = toolCountDB dupToolStAB "B" +
        (accOf (decodeEntries (skipUntilIndex dupToolStAB "B") ⟨[], [], []⟩
          (parse_jsonl_file grownBEvents))).tool_uses.length :=
  c7_tool_count_base_is_recount grownBEvents "B" "p" dupToolStAB
    (accOf (decodeEntries (skipUntilIndex dupToolStAB "B") ⟨[], [], []⟩
      (parse_jsonl_file grownBEvents)))
    dupToolStB2 1 1 (by decide) (by decide) (by decide) (by decide)

/-- C2: appending M messages to a session with persisted indices up to
N - 1 and re-importing inserts exactly M new message rows, whose indices
are exactly N .. N + M - 1 (each message keeps its zero-based position in
full decode order), and updates the session row in place: end_time becomes
the timestamp of the last decoded (hence last appended) message and
message_count becomes N + M. -/
theorem c2_append_only_correctness (evs : List ReadEvent) (sid pid : String)
    (st : DBState) (acc : DecodeAcc) (st' : DBState) (m t : Nat) (N M : Nat)
    (hdec : decodeEntries (skipUntilIndex st sid) ⟨[], [], []⟩ (parse_jsonl_file evs) = .ok acc)
    (hN : 1 ≤ N) (hM : 1 ≤ M)
    (hlen : acc.messages.length = N + M)
    (hw : skipUntilIndex st sid = (N : Int) - 1)
    (hex : ∃ row ∈ st.sessions, row.session_id = sid)
    (hok : process_session evs sid pid st = .ok (st', m, t)) :
    m = M ∧
    (∃ rows, st'.messages = st.messages ++ rows ∧
      rows.map (fun r => r.message_index) = List.range' N M ∧
      ∀ r ∈ rows, r.session_id = sid) ∧
    (∀ row ∈ st'.sessions, row.session_id = sid →
      row.message_count = N + M ∧ row.end_time = (acc.messages.getLast!).timestamp) ∧
    (∃ row ∈ st'.sessions, row.session_id = sid) := by
  have hlenpos : 0 < acc.messages.length := by omega
  have hemp : (parse_jsonl_file evs).isEmpty = false := by
    cases hp : parse_jsonl_file evs with
    | nil =>
      rw [hp] at hdec
      have hacc : acc = ⟨[], [], []⟩ := by
        have : (Except.ok ⟨[], [], []⟩ : Except Unit DecodeAcc) = .ok acc := hdec
        exact ((Except.ok.injEq _ _).mp this).symm
      rw [hacc] at hlenpos
      simp at hlenpos
    | cons a l => rfl
  have hmsg : acc.messages.isEmpty = false :=
    List.isEmpty_eq_false.mpr (List.ne_nil_of_length_pos hlenpos)
  have hskip : (0 : Int) ≤ skipUntilIndex st sid := by
    rw [hw]
    omega
  have hfr : (List.range acc.messages.length).filter
      (fun (i : Nat) => ((i : Int) > skipUntilIndex st sid : Bool)) = List.range' N M := by
    rw [hw, hlen, filter_range_gt (N + M) N]
    congr 1
    omega
  have hnewmap : ((acc.messages.enum.filter
      (fun p => ((p.1 : Int) > skipUntilIndex st sid : Bool))).map Prod.fst) =
      List.range' N M := by
    rw [enum_filter_map_fst, hfr]
  have hnewlen : (acc.messages.enum.filter
      (fun p => ((p.1 : Int) > skipUntilIndex st sid : Bool))).length = M := by
    have := congrArg List.length hnewmap
    rw [List.length_map, List.length_range'] at this
    exact this
  have hnewne : ¬ ((acc.messages.enum.filter
      (fun p => ((p.1 : Int) > skipUntilIndex st sid : Bool))).isEmpty = true ∧
      0 ≤ skipUntilIndex st sid) := by
    intro ⟨h1, _⟩
    rw [List.isEmpty_iff] at h1
    rw [h1] at hnewlen
    simp at hnewlen
    omega
  simp only [process_session, hemp, Bool.false_eq_true, if_false, hdec, hmsg] at hok
  rw [if_neg hnewne, if_pos hskip] at hok
  by_cases hstor : sqlStorable ((acc.messages.getLast!).timestamp) = true
  · rw [if_pos hstor] at hok
    simp only [if_pos hskip] at hok
    obtain ⟨hmn, _, _, hs3, rows, hrm, hri, hra⟩ := writePhase_ok _ _ _ _ _ _ _ _ hok
    refine ⟨by rw [hmn, hnewlen], ⟨rows, ?_, by rw [hri, hfr], hra⟩, ?_, ?_⟩
    · exact hrm
    · intro row hrow hrsid
      rw [hs3] at hrow
      have := updateSessionRow_fields _ _ _ _ _ _ hrow hrsid
      exact ⟨by rw [this.2.1, hlen], this.1⟩
    · obtain ⟨r0, hr0, hr0sid⟩ := hex
      have hupd := updateSessionRow_mem st.sessions sid ((acc.messages.getLast!).timestamp)
        acc.messages.length (toolCountDB st sid + acc.tool_uses.length) r0 hr0 hr0sid
      refine ⟨⟨r0.session_id, r0.project_id, r0.start_time,
        (acc.messages.getLast!).timestamp, acc.messages.length,
        toolCountDB st sid + acc.tool_uses.length⟩, ?_, hr0sid⟩
      rw [hs3]
      exact hupd
  · rw [if_neg hstor] at hok
    cases hok

/-- The sample session file after one assistant message was appended. -/
def grownScenarioEvents : List ReadEvent :=
  scenarioEvents ++ [ev (mkEntry "t3" "assistant" (.str "done"))]

/-- The store after re-importing the grown sample file. -/
def scenarioSt2 : DBState :=
  resultState (process_session grownScenarioEvents "s" "p" scenarioSt1)

/-- Witness for C2 at the sample session: with three messages persisted,
re-importing the file grown to four messages inserts exactly one row with
index 3 and advances end_time to t3 and message_count to 4. -/
theorem c2_witness :
    (1 : Nat) = 1 ∧
    (∃ rows, scenarioSt2.messages = scenarioSt1.messages ++ rows ∧
      rows.map (fun r => r.message_index) = List.range' 3 1 ∧
      ∀ r ∈ rows, r.session_id = "s") ∧
    (∀ row ∈ scenarioSt2.sessions, row.session_id = "s" →
      row.message_count = 3 + 1 ∧
      row.end_time = ((accOf (decodeEntries (skipUntilIndex scenarioSt1 "s") ⟨[], [], []⟩
        (parse_jsonl_file grownScenarioEvents))).messages.getLast!).timestamp) ∧
    (∃ row ∈ scenarioSt2.sessions, row.session_id = "s") :=
  c2_append_only_correctness grownScenarioEvents "s" "p" scenarioSt1
    (accOf (decodeEntries (skipUntilIndex scenarioSt1 "s") ⟨[], [], []⟩
      (parse_jsonl_file grownScenarioEvents)))
    scenarioSt2 1 0 3 1 (by decide) (by decide) (by decide) (by decide) (by decide)
    (by decide) (by decide)

lemma msgIndices_of_append (st st' : DBState) (rows : List MessageRow) (s : String)
    (h : st'.messages = st.messages ++ rows) :
    msgIndices st' s = msgIndices st s ++
      ((rows.filter (fun r => r.session_id == s)).map (fun r => r.message_index)) := by
  unfold msgIndices
  rw [h, List.filter_append, List.map_append]

/-- C3 (amended): the index contiguity invariant — the persisted message
indices of a session are exactly 0 .. message_count - 1 of its session
row — is preserved by every import pass that completes without raising,
for the processed session and every other session alike. A pass that
raises mid-write can break it (see the counterexample): the session row
update precedes the message inserts, so an aborted insert loop leaves
message_count ahead of the persisted rows. -/
theorem c3_contiguity_preserved (evs : List ReadEvent) (sid pid s : String)
    (st st' : DBState) (m t : Nat)
    (hinv : sessionInvariant st s)
    (hok : process_session evs sid pid st = .ok (st', m, t)) :
    sessionInvariant st' s := by
  rcases process_session_shape evs sid pid st with h | h | ⟨acc, st1, hdec, hne, heq, hbr⟩
  · rw [h] at hok
    simp only [Except.ok.injEq, Prod.mk.injEq] at hok
    rw [← hok.1]
    exact hinv
  · rw [h] at hok
    cases hok
  · rw [heq] at hok
    obtain ⟨_, _, _, hs3, rows, hrm, hri, hra⟩ := writePhase_ok _ _ _ _ _ _ _ _ hok
    rcases hbr with ⟨hskip, hnewne, hst1⟩ | ⟨hninc, hnosid, hst1⟩
    · -- incremental branch: the watermark is the previous count minus one
      subst hst1
      intro row hrow hrowsid
      rw [hs3] at hrow
      have hrow2 : row ∈ updateSessionRow st.sessions sid
          ((acc.messages.getLast!).timestamp) acc.messages.length
          (toolCountDB st sid + acc.tool_uses.length) := hrow
      obtain ⟨r, hr, hval⟩ := List.mem_map.mp hrow2
      by_cases hcase : (r.session_id == sid) = true
      · -- a row of the processed session: its count becomes the new length
        rw [if_pos hcase] at hval
        have hrsid : r.session_id = sid := by simpa using hcase
        have hssid : s = sid := by
          rw [← hrowsid, ← hval]
          exact hrsid
        subst hssid
        have hperm : (msgIndices st s).Perm (List.range r.message_count) :=
          hinv r hr hrsid
        have hwm : skipUntilIndex st s = (r.message_count : Int) - 1 :=
          skipUntil_of_perm st s r.message_count hperm
        have hcpos : 1 ≤ r.message_count := by
          by_contra hc
          have : r.message_count = 0 := by omega
          rw [this] at hwm
          rw [hwm] at hskip
          omega
        have hfr : (List.range acc.messages.length).filter
            (fun (i : Nat) => ((i : Int) > skipUntilIndex st s : Bool)) =
            List.range' r.message_count (acc.messages.length - r.message_count) := by
          rw [hwm]
          exact filter_range_gt acc.messages.length r.message_count
        have hcle : r.message_count < acc.messages.length := by
          by_contra hc
          have hz : acc.messages.length - r.message_count = 0 := by omega
          rw [hz] at hfr
          have hmapnil : ((acc.messages.enum.filter
              (fun p => ((p.1 : Int) > skipUntilIndex st s : Bool))).map Prod.fst) = [] := by
            rw [enum_filter_map_fst, hfr]
            rfl
          exact hnewne (List.map_eq_nil_iff.mp hmapnil)
        have hindices : msgIndices st' s = msgIndices st s ++
            List.range' r.message_count (acc.messages.length - r.message_count) := by
          rw [msgIndices_of_append _ _ rows s hrm]
          congr 1
          rw [List.filter_eq_self.mpr (fun q hq => by simp [hra q hq])]
          rw [hri, hfr]
        rw [hindices, ← hval]
        show (msgIndices st s ++ _).Perm (List.range acc.messages.length)
        have hsplit : List.range r.message_count ++
            List.range' r.message_count (acc.messages.length - r.message_count) =
            List.range acc.messages.length := by
          rw [List.range_eq_range', List.range_eq_range']
          have := List.range'_append 0 r.message_count
            (acc.messages.length - r.message_count) 1
          simp only [one_mul, Nat.zero_add] at this
          rw [this]
          congr 1
          omega
        rw [← hsplit]
        exact List.Perm.append_right _ hperm
      · -- a row of another session: untouched, and no new rows match it
        rw [if_neg hcase] at hval
        subst hval
        have hrsid : r.session_id ≠ sid := by simpa using hcase
        have hssne : s ≠ sid := by
          rw [← hrowsid]
          exact hrsid
        have hindices : msgIndices st' s = msgIndices st s := by
          rw [msgIndices_of_append _ _ rows s hrm]
          rw [List.filter_eq_nil_iff.mpr (fun q hq => by simp [hra q hq, hssne.symm])]
          simp only [List.map_nil, List.append_nil]
          rfl
        rw [hindices]
        exact hinv r hr hrowsid
    · -- fresh branch: the session had no rows and no prior messages
      subst hst1
      intro row hrow hrowsid
      rw [hs3] at hrow
      rcases List.mem_append.mp hrow with hold | hnew
      · have hrsid : row.session_id ≠ sid := hnosid row hold
        have hssne : s ≠ sid := by
          rw [← hrowsid]
          exact hrsid
        have hindices : msgIndices st' s = msgIndices st s := by
          rw [msgIndices_of_append _ _ rows s hrm]
          rw [List.filter_eq_nil_iff.mpr (fun q hq => by simp [hra q hq, hssne.symm])]
          simp only [List.map_nil, List.append_nil]
          rfl
        rw [hindices]
        exact hinv row hold hrowsid
      · have hroweq : row = ⟨sid, pid, (acc.messages.headI).timestamp,
            (acc.messages.getLast!).timestamp, acc.messages.length,
            acc.tool_uses.length⟩ := by
          simpa using hnew
        have hssid : s = sid := by
          rw [← hrowsid, hroweq]
        subst hssid
        have hempty : msgIndices st s = [] := skipUntil_neg st s hninc
        have hfr : (List.range acc.messages.length).filter
            (fun (i : Nat) => ((i : Int) > skipUntilIndex st s : Bool)) =
            List.range acc.messages.length := by
          rw [List.filter_eq_self]
          intro i _
          simp only [decide_eq_true_eq]
          omega
        have hindices : msgIndices st' s = List.range acc.messages.length := by
          rw [msgIndices_of_append _ _ rows s hrm]
          rw [List.filter_eq_self.mpr (fun q hq => by simp [hra q hq])]
          rw [hri, hfr]
          rw [show msgIndices (freshSessionsState st s pid acc) s = msgIndices st s from rfl]
          rw [hempty]
          rfl
        rw [hindices, hroweq]

/-- A growing session file whose second message carries a text part whose
text field is a number: flattening it raises a TypeError in the insert
loop, after the session row was already written. -/
def badTextEvents : List ReadEvent :=
  [ev (mkEntry "t0" "user" (.str "hi")),
   ev (mkEntry "t1" "user" (.arr [.obj [("type", .str "text"), ("text", .num 5)]]))]

/-- The store left behind by the aborted pass. -/
def badTextSt : DBState := resultState (process_session badTextEvents "s" "p" scenarioDB0)

/-- Counterexample for C3 as stated: starting from a store satisfying the
invariant, a single import pass over a file that only grew (from nothing
to two messages) raises while inserting message 1, leaving a session row
with message_count 2 while only the message with index 0 was persisted:
the invariant is not preserved by every import pass. -/
theorem c3_counterexample :
    sessionInvariant scenarioDB0 "s" ∧
    process_session badTextEvents "s" "p" scenarioDB0 = .error badTextSt ∧
    badTextSt.sessions.map (fun r => r.message_count) = [2] ∧
    msgIndices badTextSt "s" = [0] ∧
    ¬ sessionInvariant badTextSt "s" := by
  decide

/-- Witness for the amended C3 at the sample session: the first completed
pass of the importer preserves the invariant, yielding indices 0, 1, 2
against a message_count of 3. -/
theorem c3_witness : sessionInvariant scenarioSt1 "s" :=
  c3_contiguity_preserved scenarioEvents "s" "p" "s" scenarioDB0 scenarioSt1 3 1
    (by decide) (by decide)
